import Mathlib

/-!
Verification of `src/mandelbrot.py` (escape-time fractal core).

Shallow embedding conventions:
* Python `complex` is modelled by `Cplx`, a pair of rationals; exact rational
  arithmetic stands in for IEEE floats (the algorithms use only `+`, `*`, `-`,
  division by `max_iterations + 1`, and the comparison `abs(z) > 2`, which for
  exact arithmetic is equivalent to `normSq z > 4` since both sides of
  `abs(z) > 2` are nonnegative).
* numpy arrays over an arbitrary cell index type `α` are modelled as functions
  `α → _`; the masked fancy-indexing assignments of the source become pointwise
  `if` updates (numpy applies them cellwise).
* `max_iterations` is a Python `int`, modelled as `ℤ`; `range(n)` for `n ≤ 0`
  is empty, modelled with `Int.toNat` fuel.
* `np.arange(start, stop, step)` raises `ZeroDivisionError` for `step = 0`,
  so `get_complex_grid` returns `Except String _`; for `step ≠ 0` its length
  is `max 0 ⌈(stop - start)/step⌉` and element `i` is `start + i*step`.
* In `get_escape_time_color_arr` / `get_julia_color_arr` the final division is
  numpy true division.  For `max_iterations = -1` numpy produces `nan` (0/0)
  where rational division yields 0; no theorem below evaluates the batch
  colors at `max_iterations = -1`.
-/

/-- A Python `complex`: real and imaginary part, modelled exactly over ℚ. -/
structure Cplx where
  re : ℚ
  im : ℚ
deriving DecidableEq, Repr

/-- Complex addition. -/
def Cplx.add (x y : Cplx) : Cplx := ⟨x.re + y.re, x.im + y.im⟩

/-- Complex multiplication. -/
def Cplx.mul (x y : Cplx) : Cplx := ⟨x.re * y.re - x.im * y.im, x.re * y.im + x.im * y.re⟩

/-- Squared magnitude: `abs(z) > 2` in the source is `4 < normSq z` here. -/
def Cplx.normSq (x : Cplx) : ℚ := x.re ^ 2 + x.im ^ 2

/-- The complex number 0 (`z = 0` initialisation in `get_escape_time`). -/
def Cplx.zero : Cplx := ⟨0, 0⟩

/-- The loop of `get_escape_time`: `z` is the current iterate, `k` the current
loop index, `fuel` the number of loop iterations remaining.  Each iteration
computes `z = z**2 + c` and returns `k` as soon as `abs(z) > 2`. -/
def escapeLoop (c : Cplx) : Cplx → ℕ → ℕ → Option ℕ
  | _, _, 0 => none
  | z, k, fuel + 1 =>
    let z2 := (z.mul z).add c
    if 4 < z2.normSq then some k else escapeLoop c z2 (k + 1) fuel

/-- Function `get_escape_time(c, max_iterations)` from `src/mandelbrot.py`:
`z = 0`, then `for k in range(max_iterations+1): z = z**2 + c; if abs(z) > 2:
return k`, returning `None` when the loop finishes without escaping.
`range(max_iterations+1)` has `max 0 (max_iterations+1)` elements. -/
def get_escape_time (c : Cplx) (max_iterations : ℤ) : Option ℕ :=
  escapeLoop c Cplx.zero 0 (max_iterations + 1).toNat

/-- Length of `np.arange(start, stop, step)` for `step ≠ 0`:
`max 0 ⌈(stop - start)/step⌉`. -/
def arangeLen (start stop step : ℚ) : ℕ := (⌈(stop - start) / step⌉).toNat

/-- Model of `np.arange(start, stop, step)` for `step ≠ 0`: element `i` is
`start + i*step`. -/
def np_arange (start stop step : ℚ) : List ℚ :=
  (List.range (arangeLen start stop step)).map (fun i : ℕ => start + (i : ℚ) * step)

/-- Function `get_complex_grid(top_left, bottom_right, step)` from `src/mandelbrot.py`:
ascending `np.arange` over real parts, descending (step `-step`) over
imaginary parts, combined by `np.meshgrid` into `real_arr + 1j*imag_arr`,
i.e. row `i` column `j` holds `real_range[j] + 1j*imag_range[i]`.
`np.arange` raises `ZeroDivisionError` when `step = 0`. -/
def get_complex_grid (top_left bottom_right : Cplx) (step : ℚ) :
    Except String (List (List Cplx)) :=
  if step = 0 then Except.error "ZeroDivisionError" else
    let real_range := np_arange top_left.re bottom_right.re step
    let imag_range := np_arange top_left.im bottom_right.im (-step)
    Except.ok (imag_range.map (fun im => real_range.map (fun re => Cplx.mk re im)))

/-- The body of the loop in `get_escape_time_color_arr`, acting on the local
variables of the source function; the input `c_arr` is carried in the state so
that its (non-)mutation is part of the model.  `i` is the loop index.
The numpy lines become pointwise updates:
`zeros[mask] = zeros[mask]**2 + c_arr[mask]`,
`newly_escaped = mask & (np.abs(zeros) > 2)`,
`escape_times[newly_escaped] = i`, `mask[newly_escaped] = False`. -/
structure MandelState (α : Type) where
  c_arr : α → Cplx
  zeros : α → Cplx
  escape_times : α → ℤ
  mask : α → Bool

def mandelStep {α : Type} (i : ℕ) (s : MandelState α) : MandelState α :=
  let zeros1 := fun p => if s.mask p then ((s.zeros p).mul (s.zeros p)).add (s.c_arr p)
                         else s.zeros p
  let newly_escaped := fun p => s.mask p ∧ 4 < (zeros1 p).normSq
  { c_arr := s.c_arr
    zeros := zeros1
    escape_times := fun p => if newly_escaped p then (i : ℤ) else s.escape_times p
    mask := fun p => if newly_escaped p then false else s.mask p }

/-- The loop `for i in range(...)`: run `steps` iterations of `mandelStep`, starting at
loop index `i`. -/
def mandelIter {α : Type} : ℕ → ℕ → MandelState α → MandelState α
  | 0, _, s => s
  | steps + 1, i, s => mandelIter steps (i + 1) (mandelStep i s)

/-- The state of `get_escape_time_color_arr` before its loop:
`zeros = np.zeros_like(c_arr)`, `escape_times = np.full(_, max_iterations+1)`,
`mask = np.ones(_, dtype=bool)`. -/
def mandelInit {α : Type} (c_arr : α → Cplx) (max_iterations : ℤ) : MandelState α :=
  { c_arr := c_arr
    zeros := fun _ => Cplx.zero
    escape_times := fun _ => max_iterations + 1
    mask := fun _ => true }

/-- The state of `get_escape_time_color_arr` after its loop
(`range(max_iterations + 1)` runs `max 0 (max_iterations+1)` iterations,
indices from 0). -/
def mandelFinal {α : Type} (c_arr : α → Cplx) (max_iterations : ℤ) : MandelState α :=
  mandelIter (max_iterations + 1).toNat 0 (mandelInit c_arr max_iterations)

/-- Function `get_escape_time_color_arr(c_arr, max_iterations)` from `src/mandelbrot.py`:
run the masked loop, then normalise by
`colors = (max_iterations - escape_times + 1) / (max_iterations + 1)`
(numpy true division; real-valued output). -/
def get_escape_time_color_arr {α : Type} (c_arr : α → Cplx) (max_iterations : ℤ) :
    α → ℚ :=
  fun p =>
    ((max_iterations : ℚ) - ((mandelFinal c_arr max_iterations).escape_times p : ℚ) + 1)
      / ((max_iterations : ℚ) + 1)

/-- The local variables of `get_julia_color_arr`: the input `grid` plus
`z = np.copy(grid)`, `escape_times`, `mask`.  The loop body is textually the
same masked update as in `get_escape_time_color_arr`, with the single fixed
parameter `c` in place of the per-cell `c_arr`. -/
structure JuliaState (α : Type) where
  grid : α → Cplx
  z : α → Cplx
  escape_times : α → ℤ
  mask : α → Bool

def juliaStep {α : Type} (c : Cplx) (i : ℕ) (s : JuliaState α) : JuliaState α :=
  let z1 := fun p => if s.mask p then ((s.z p).mul (s.z p)).add c else s.z p
  let newly_escaped := fun p => s.mask p ∧ 4 < (z1 p).normSq
  { grid := s.grid
    z := z1
    escape_times := fun p => if newly_escaped p then (i : ℤ) else s.escape_times p
    mask := fun p => if newly_escaped p then false else s.mask p }

def juliaIter {α : Type} (c : Cplx) : ℕ → ℕ → JuliaState α → JuliaState α
  | 0, _, s => s
  | steps + 1, i, s => juliaIter c steps (i + 1) (juliaStep c i s)

/-- Initial state of `get_julia_color_arr`: `z = np.copy(grid)`,
`escape_times = np.full(_, max_iterations+1)`, `mask = np.ones(_, bool)`. -/
def juliaInit {α : Type} (grid : α → Cplx) (max_iterations : ℤ) : JuliaState α :=
  { grid := grid
    z := grid
    escape_times := fun _ => max_iterations + 1
    mask := fun _ => true }

def juliaFinal {α : Type} (grid : α → Cplx) (c : Cplx) (max_iterations : ℤ) :
    JuliaState α :=
  juliaIter c (max_iterations + 1).toNat 0 (juliaInit grid max_iterations)

/-- Function `get_julia_color_arr(grid, c, max_iterations)` from `src/mandelbrot.py`. -/
def get_julia_color_arr {α : Type} (grid : α → Cplx) (c : Cplx) (max_iterations : ℤ) :
    α → ℚ :=
  fun p =>
    ((max_iterations : ℚ) - ((juliaFinal grid c max_iterations).escape_times p : ℚ) + 1)
      / ((max_iterations : ℚ) + 1)

/-- Per-cell view of the batch loops: one cell's `(z, escape_time, mask)`
triple.  numpy's masked assignments act cellwise, so each batch step is the
product over cells of this scalar step. -/
structure CellState where
  z : Cplx
  esc : ℤ
  mask : Bool

def cellStep (c : Cplx) (i : ℕ) (s : CellState) : CellState :=
  let z1 := if s.mask then ((s.z).mul (s.z)).add c else s.z
  let newly := s.mask ∧ 4 < z1.normSq
  ⟨z1, if newly then (i : ℤ) else s.esc, if newly then false else s.mask⟩

def cellIter (c : Cplx) : ℕ → ℕ → CellState → CellState
  | 0, _, s => s
  | steps + 1, i, s => cellIter c steps (i + 1) (cellStep c i s)

/-- Projection of a Mandelbrot batch state to one cell. -/
def MandelState.cell {α : Type} (s : MandelState α) (p : α) : CellState :=
  ⟨s.zeros p, s.escape_times p, s.mask p⟩

/-- Projection of a Julia batch state to one cell. -/
def JuliaState.cell {α : Type} (s : JuliaState α) (p : α) : CellState :=
  ⟨s.z p, s.escape_times p, s.mask p⟩

/-! Lemma layer: each batch loop is the cellwise product of `cellStep`. -/

lemma mandelStep_c_arr {α : Type} (i : ℕ) (s : MandelState α) :
    (mandelStep i s).c_arr = s.c_arr := rfl

lemma juliaStep_grid {α : Type} (c : Cplx) (i : ℕ) (s : JuliaState α) :
    (juliaStep c i s).grid = s.grid := rfl

lemma mandelIter_c_arr {α : Type} (steps i : ℕ) (s : MandelState α) :
    (mandelIter steps i s).c_arr = s.c_arr := by
  induction steps generalizing i s with
  | zero => rfl
  | succ n ih => simpa [mandelIter] using ih (i + 1) (mandelStep i s)

lemma juliaIter_grid {α : Type} (c : Cplx) (steps i : ℕ) (s : JuliaState α) :
    (juliaIter c steps i s).grid = s.grid := by
  induction steps generalizing i s with
  | zero => rfl
  | succ n ih => simpa [juliaIter] using ih (i + 1) (juliaStep c i s)

lemma mandelStep_cell {α : Type} (i : ℕ) (s : MandelState α) (p : α) :
    (mandelStep i s).cell p = cellStep (s.c_arr p) i (s.cell p) := rfl

lemma juliaStep_cell {α : Type} (c : Cplx) (i : ℕ) (s : JuliaState α) (p : α) :
    (juliaStep c i s).cell p = cellStep c i (s.cell p) := rfl

lemma mandelIter_cell {α : Type} (steps i : ℕ) (s : MandelState α) (p : α) :
    (mandelIter steps i s).cell p = cellIter (s.c_arr p) steps i (s.cell p) := by
  induction steps generalizing i s with
  | zero => rfl
  | succ n ih =>
    simp only [mandelIter, cellIter, ih (i + 1) (mandelStep i s),
      mandelStep_cell, mandelStep_c_arr]

lemma juliaIter_cell {α : Type} (c : Cplx) (steps i : ℕ) (s : JuliaState α) (p : α) :
    (juliaIter c steps i s).cell p = cellIter c steps i (s.cell p) := by
  induction steps generalizing i s with
  | zero => rfl
  | succ n ih =>
    simp only [juliaIter, cellIter, ih (i + 1) (juliaStep c i s), juliaStep_cell]

/-- An escaped (mask-off) cell is completely frozen by one step. -/
lemma cellStep_frozen (c : Cplx) (i : ℕ) (s : CellState) (h : s.mask = false) :
    cellStep c i s = s := by
  cases s with
  | mk z e m => simp only at h; simp [cellStep, h]

/-- An escaped (mask-off) cell is completely frozen by the rest of the loop. -/
lemma cellIter_frozen (c : Cplx) (steps i : ℕ) (s : CellState) (h : s.mask = false) :
    cellIter c steps i s = s := by
  induction steps generalizing i with
  | zero => rfl
  | succ n ih => rw [cellIter, cellStep_frozen c i s h, ih]

/-- Trace equivalence for an active cell: the final `esc` and `mask` of the
masked per-cell loop are read off the scalar loop `escapeLoop` run with the
same start point, loop index and fuel. -/
lemma cellIter_active (c : Cplx) (steps : ℕ) :
    ∀ (i : ℕ) (z : Cplx) (e : ℤ),
      (cellIter c steps i ⟨z, e, true⟩).esc
          = (escapeLoop c z i steps).elim e (fun t => (t : ℤ)) ∧
      (cellIter c steps i ⟨z, e, true⟩).mask = (escapeLoop c z i steps).isNone := by
  induction steps with
  | zero => intro i z e; simp [cellIter, escapeLoop]
  | succ n ih =>
    intro i z e
    rw [cellIter, escapeLoop]
    by_cases h : 4 < ((z.mul z).add c).normSq
    · have hstep : cellStep c i ⟨z, e, true⟩ = ⟨(z.mul z).add c, (i : ℤ), false⟩ := by
        simp [cellStep, h]
      rw [hstep, cellIter_frozen c n (i + 1) _ rfl]
      simp [h]
    · have hstep : cellStep c i ⟨z, e, true⟩ = ⟨(z.mul z).add c, e, true⟩ := by
        simp [cellStep, h]
      rw [hstep]
      simpa [h] using ih (i + 1) ((z.mul z).add c) e

/-- The loop `escapeLoop` only returns loop indices it actually ran through. -/
lemma escapeLoop_some_bound (c : Cplx) (steps : ℕ) :
    ∀ (i t : ℕ) (z : Cplx), escapeLoop c z i steps = some t → i ≤ t ∧ t < i + steps := by
  induction steps with
  | zero => intro i t z h; simp [escapeLoop] at h
  | succ n ih =>
    intro i t z h
    rw [escapeLoop] at h
    by_cases hc : 4 < ((z.mul z).add c).normSq
    · simp [hc] at h
      omega
    · simp [hc] at h
      have := ih (i + 1) t ((z.mul z).add c) h
      omega

/-- The escape times array of `get_escape_time_color_arr` after its loop:
cell `p` holds the scalar `get_escape_time(c_arr[p], N)`, with `None`
replaced by the sentinel `N + 1`. -/
lemma mandelFinal_escape_times {α : Type} (c_arr : α → Cplx) (N : ℤ) (p : α) :
    (mandelFinal c_arr N).escape_times p
      = (get_escape_time (c_arr p) N).elim (N + 1) (fun t => (t : ℤ)) := by
  have hcell : (mandelFinal c_arr N).cell p
      = cellIter (c_arr p) (N + 1).toNat 0 ⟨Cplx.zero, N + 1, true⟩ := by
    rw [mandelFinal, mandelIter_cell]
    rfl
  have h := (cellIter_active (c_arr p) (N + 1).toNat 0 Cplx.zero (N + 1)).1
  have : (mandelFinal c_arr N).escape_times p
      = (cellIter (c_arr p) (N + 1).toNat 0 ⟨Cplx.zero, N + 1, true⟩).esc :=
    congrArg CellState.esc hcell
  rw [this, h]
  rfl

/-- Same for the Julia loop: cell `p` holds the result of the scalar loop
started at `z = grid[p]` with fixed parameter `c`. -/
lemma juliaFinal_escape_times {α : Type} (grid : α → Cplx) (c : Cplx) (N : ℤ) (p : α) :
    (juliaFinal grid c N).escape_times p
      = (escapeLoop c (grid p) 0 (N + 1).toNat).elim (N + 1) (fun t => (t : ℤ)) := by
  have hcell : (juliaFinal grid c N).cell p
      = cellIter c (N + 1).toNat 0 ⟨grid p, N + 1, true⟩ := by
    rw [juliaFinal, juliaIter_cell]
    rfl
  have h := (cellIter_active c (N + 1).toNat 0 (grid p) (N + 1)).1
  have : (juliaFinal grid c N).escape_times p
      = (cellIter c (N + 1).toNat 0 ⟨grid p, N + 1, true⟩).esc :=
    congrArg CellState.esc hcell
  rw [this, h]

/-- The iterate of `z = z*z + c` starting from `c = z_1`: `0*0 + c = c`. -/
lemma zero_step (c : Cplx) : (Cplx.zero.mul Cplx.zero).add c = c := by
  cases c with
  | mk r i => simp [Cplx.zero, Cplx.mul, Cplx.add]

/-- Starting from `0` with `c = 0`, the loop never escapes. -/
lemma escapeLoop_zero (steps : ℕ) :
    ∀ k, escapeLoop ⟨0, 0⟩ ⟨0, 0⟩ k steps = none := by
  induction steps with
  | zero => intro k; rfl
  | succ n ih =>
    intro k
    rw [escapeLoop]
    have hz : ((Cplx.mk 0 0).mul ⟨0, 0⟩).add ⟨0, 0⟩ = ⟨0, 0⟩ := by
      simp [Cplx.mul, Cplx.add]
    rw [hz]
    have : ¬ (4 : ℚ) < (Cplx.mk 0 0).normSq := by norm_num [Cplx.normSq]
    simp only [this, if_false]
    exact ih (k + 1)

/-- Element access in a `range`-`map` list via `getD`. -/
lemma range_map_getD {β : Type} (n i : ℕ) (f : ℕ → β) (d : β) (h : i < n) :
    ((List.range n).map f).getD i d = f i := by
  rw [List.getD_eq_getElem?_getD]
  rw [List.getElem?_map, List.getElem?_range h]
  rfl

lemma np_arange_length (start stop step : ℚ) :
    (np_arange start stop step).length = arangeLen start stop step := by
  rw [np_arange, List.length_map, List.length_range]

lemma np_arange_getD (start stop step : ℚ) (i : ℕ) (d : ℚ)
    (h : i < arangeLen start stop step) :
    (np_arange start stop step).getD i d = start + i * step := by
  rw [np_arange]
  exact range_map_getD _ _ _ _ h

/-- Access via `getD` through `map`, for an in-bounds index. -/
lemma getD_map_of_lt {β γ : Type} (l : List β) (f : β → γ) (dbeta : β) (dgamma : γ)
    (i : ℕ) (h : i < l.length) :
    (l.map f).getD i dgamma = f (l.getD i dbeta) := by
  rw [List.getD_eq_getElem?_getD, List.getD_eq_getElem?_getD, List.getElem?_map,
    List.getElem?_eq_getElem h]
  rfl

/-! Claim theorems. -/

/-- C1: for every array `c_arr` and every `max_iterations = N ≥ 0`, the batch
`get_escape_time_color_arr` matches the scalar `get_escape_time` cell by cell:
converting the returned intensity back via
`escape_time = N + 1 - intensity * (N + 1)` recovers, at every cell, exactly
`get_escape_time(c, N)` when that is an integer and the sentinel `N + 1` when
it is `None`; the active-mask early exit changes no per-cell arithmetic. -/
theorem spec_C1 {α : Type} (c_arr : α → Cplx) (N : ℕ) (p : α) :
    ((N : ℚ) + 1) - get_escape_time_color_arr c_arr (N : ℤ) p * ((N : ℚ) + 1)
      = (((get_escape_time (c_arr p) (N : ℤ)).getD (N + 1) : ℕ) : ℚ) := by
  have hne : ((N : ℚ) + 1) ≠ 0 := by positivity
  have key : ∀ e : ℚ,
      ((N : ℚ) + 1) - (((N : ℚ) - e + 1) / ((N : ℚ) + 1)) * ((N : ℚ) + 1) = e := by
    intro e
    rw [div_mul_cancel₀ _ hne]
    ring
  rw [get_escape_time_color_arr, mandelFinal_escape_times]
  rcases h : get_escape_time (c_arr p) (N : ℤ) with _ | u
  · simp only [Option.elim_none, Option.getD_none]
    push_cast
    exact key _
  · simp only [Option.elim_some, Option.getD_some]
    push_cast
    exact key _

/-- C2: for `step > 0` and a correctly oriented rectangle, `get_complex_grid`
returns (no error) a 2-D array of shape
`(⌈(top_left.im - bottom_right.im)/step⌉, ⌈(bottom_right.re - top_left.re)/step⌉)`
whose entry at row `i`, column `j` is
`(top_left.re + j*step) + 1j*(top_left.im - i*step)` — half-open on both axes. -/
theorem spec_C2 (top_left bottom_right : Cplx) (step : ℚ) (hs : 0 < step)
    (hre : top_left.re < bottom_right.re) (him : bottom_right.im < top_left.im) :
    ∃ g, get_complex_grid top_left bottom_right step = Except.ok g ∧
      g.length = (⌈(top_left.im - bottom_right.im) / step⌉).toNat ∧
      (∀ row ∈ g, row.length = (⌈(bottom_right.re - top_left.re) / step⌉).toNat) ∧
      (∀ i j : ℕ, i < g.length →
        j < (⌈(bottom_right.re - top_left.re) / step⌉).toNat →
        (g.getD i []).getD j Cplx.zero
          = ⟨top_left.re + j * step, top_left.im - i * step⟩) := by
  have hne : step ≠ 0 := ne_of_gt hs
  have key_im : (bottom_right.im - top_left.im) / (-step)
      = (top_left.im - bottom_right.im) / step := by
    rw [div_neg,
      show top_left.im - bottom_right.im = -(bottom_right.im - top_left.im) by ring,
      neg_div]
  rw [get_complex_grid, if_neg hne]
  refine ⟨_, rfl, ?_, ?_, ?_⟩
  · rw [List.length_map, np_arange_length, arangeLen, key_im]
  · intro row hrow
    obtain ⟨im, _, hk⟩ := List.mem_map.mp hrow
    rw [← hk, List.length_map, np_arange_length, arangeLen]
  · intro i j hi hj
    rw [List.length_map, np_arange_length] at hi
    have hj2 : j < arangeLen top_left.re bottom_right.re step := hj
    rw [getD_map_of_lt _ _ (0 : ℚ) _ i (by rw [np_arange_length]; exact hi)]
    rw [np_arange_getD _ _ _ i 0 hi]
    rw [getD_map_of_lt _ _ (0 : ℚ) _ j (by rw [np_arange_length]; exact hj2)]
    rw [np_arange_getD _ _ _ j 0 hj2]
    congr 1 <;> ring

/-- C2 witness: `get_complex_grid(-2+1j, 1-1j, 0.5)` has shape `(4, 6)` and
its top-left entry is `-2+1j`. -/
theorem spec_C2_witness :
    ∃ g, get_complex_grid ⟨-2, 1⟩ ⟨1, -1⟩ (1 / 2) = Except.ok g ∧
      g.length = 4 ∧ (∀ row ∈ g, row.length = 6) ∧
      (g.getD 0 []).getD 0 Cplx.zero = ⟨-2, 1⟩ := by
  obtain ⟨g, h1, h2, h3, h4⟩ :=
    spec_C2 ⟨-2, 1⟩ ⟨1, -1⟩ (1 / 2) (by norm_num) (by norm_num) (by norm_num)
  have hlen : g.length = 4 := by rw [h2]; norm_num; rfl
  refine ⟨g, h1, hlen, ?_, ?_⟩
  · intro row hrow
    rw [h3 row hrow]
    norm_num
    rfl
  · have := h4 0 0 (by rw [hlen]; norm_num) (by norm_num)
    simpa using this

/-- C6: every `c` with `|c| > 2` (i.e. `normSq c > 4`) escapes at iteration
index 0, for every `max_iterations = n ≥ 0`: the first iterate is
`0*0 + c = c` and it already exceeds the escape radius. -/
theorem spec_C6 (c : Cplx) (n : ℤ) (hn : 0 ≤ n) (hc : 4 < c.normSq) :
    get_escape_time c n = some 0 := by
  rw [get_escape_time]
  have h1 : (n + 1).toNat = n.toNat + 1 := by omega
  rw [h1, escapeLoop]
  simp only [zero_step, hc, if_true]

/-- C6 witness: `c = 3` with `n = 5` escapes at index 0. -/
theorem spec_C6_witness : (0 : ℤ) ≤ 5 ∧ get_escape_time ⟨3, 0⟩ 5 = some 0 :=
  ⟨by norm_num, spec_C6 ⟨3, 0⟩ 5 (by norm_num) (by norm_num [Cplx.normSq])⟩

/-- C7: `get_escape_time(0, n) = None` for every `n ≥ 0` (`z` stays 0
forever), and every cell of `c_arr` holding 0 gets intensity exactly 0 from
`get_escape_time_color_arr`. -/
theorem spec_C7 {α : Type} (n : ℤ) (hn : 0 ≤ n) (c_arr : α → Cplx) (p : α)
    (hp : c_arr p = ⟨0, 0⟩) :
    get_escape_time ⟨0, 0⟩ n = none ∧ get_escape_time_color_arr c_arr n p = 0 := by
  have hnone : get_escape_time ⟨0, 0⟩ n = none := by
    rw [get_escape_time]
    have : Cplx.zero = ⟨0, 0⟩ := rfl
    rw [this]
    exact escapeLoop_zero _ 0
  refine ⟨hnone, ?_⟩
  rw [get_escape_time_color_arr, mandelFinal_escape_times, hp, hnone]
  simp only [Option.elim_none]
  rw [show (((n : ℤ) + 1 : ℤ) : ℚ) = ((n : ℚ) + 1) by push_cast; ring]
  rw [show (n : ℚ) - ((n : ℚ) + 1) + 1 = 0 by ring]
  exact zero_div _

/-- C7 witness: at `n = 3` with the constant-zero array. -/
theorem spec_C7_witness :
    (0 : ℤ) ≤ 3 ∧ (fun _ : Unit => Cplx.mk 0 0) () = Cplx.mk 0 0 ∧
      (get_escape_time ⟨0, 0⟩ 3 = none ∧
        get_escape_time_color_arr (fun _ : Unit => Cplx.mk 0 0) 3 () = 0) :=
  ⟨by norm_num, rfl, spec_C7 3 (by norm_num) (fun _ => Cplx.mk 0 0) () rfl⟩

/-- C9: neither batch function mutates its input array: the `c_arr` carried
through the Mandelbrot loop state and the `grid` carried through the Julia
loop state come out identical to what went in (the loops write only `zeros`
/ `z`, `escape_times` and `mask`). -/
theorem spec_C9 {α : Type} (c_arr grid : α → Cplx) (c : Cplx) (n : ℤ) :
    (mandelFinal c_arr n).c_arr = c_arr ∧ (juliaFinal grid c n).grid = grid := by
  constructor
  · rw [mandelFinal, mandelIter_c_arr]; rfl
  · rw [juliaFinal, juliaIter_grid]; rfl

/-- C3 counterexample: a cell that escapes at iteration index 0 (here
`c = 3` with `max_iterations = 1`) receives intensity exactly `1.0`,
refuting the claim that no returned entry is ever exactly 1. -/
theorem spec_C3_counterexample :
    get_escape_time_color_arr (fun _ : Unit => ⟨3, 0⟩) 1 () = 1 := by
  have h : get_escape_time ⟨3, 0⟩ (1 : ℤ) = some 0 := by
    norm_num [get_escape_time, escapeLoop, Cplx.mul, Cplx.add, Cplx.normSq, Cplx.zero]
  simp only [get_escape_time_color_arr]
  rw [mandelFinal_escape_times, h]
  norm_num

/-- C3 (amended): the normalization maps a never-escaped cell (sentinel
`N + 1`) to intensity exactly 0, and a cell that escapes at iteration index 0
to intensity exactly `1.0` — the maximum value, which IS attained, in both
`get_escape_time_color_arr` and `get_julia_color_arr`. -/
theorem spec_C3_amended {α : Type} (N : ℕ) (c_arr grid : α → Cplx) (c : Cplx) (p : α) :
    ((mandelFinal c_arr (N : ℤ)).escape_times p = (N : ℤ) + 1 →
      get_escape_time_color_arr c_arr (N : ℤ) p = 0) ∧
    ((mandelFinal c_arr (N : ℤ)).escape_times p = 0 →
      get_escape_time_color_arr c_arr (N : ℤ) p = 1) ∧
    ((juliaFinal grid c (N : ℤ)).escape_times p = (N : ℤ) + 1 →
      get_julia_color_arr grid c (N : ℤ) p = 0) ∧
    ((juliaFinal grid c (N : ℤ)).escape_times p = 0 →
      get_julia_color_arr grid c (N : ℤ) p = 1) := by
  have hne : ((N : ℚ) + 1) ≠ 0 := by positivity
  refine ⟨?_, ?_, ?_, ?_⟩ <;> intro h <;>
    simp only [get_escape_time_color_arr, get_julia_color_arr, h] <;> push_cast
  · rw [show (N : ℚ) - ((N : ℚ) + 1) + 1 = 0 by ring]
    exact zero_div _
  · rw [show (N : ℚ) - 0 + 1 = (N : ℚ) + 1 by ring]
    exact div_self hne
  · rw [show (N : ℚ) - ((N : ℚ) + 1) + 1 = 0 by ring]
    exact zero_div _
  · rw [show (N : ℚ) - 0 + 1 = (N : ℚ) + 1 by ring]
    exact div_self hne

/-- C3 amended witness: with `max_iterations = 2`, the cell `c = 0` (never
escapes) gets intensity 0 and the cell `c = 3` (escapes at index 0) gets
intensity exactly 1, in both batch functions. -/
theorem spec_C3_amended_witness :
    get_escape_time_color_arr (fun _ : Unit => Cplx.mk 0 0) ((2 : ℕ) : ℤ) () = 0 ∧
    get_escape_time_color_arr (fun _ : Unit => Cplx.mk 3 0) ((2 : ℕ) : ℤ) () = 1 ∧
    get_julia_color_arr (fun _ : Unit => Cplx.mk 0 0) ⟨0, 0⟩ ((2 : ℕ) : ℤ) () = 0 ∧
    get_julia_color_arr (fun _ : Unit => Cplx.mk 3 0) ⟨0, 0⟩ ((2 : ℕ) : ℤ) () = 1 := by
  have hz : get_escape_time ⟨0, 0⟩ ((2 : ℕ) : ℤ) = none := by
    norm_num [get_escape_time, escapeLoop, Cplx.mul, Cplx.add, Cplx.normSq, Cplx.zero]
  have h3 : get_escape_time ⟨3, 0⟩ ((2 : ℕ) : ℤ) = some 0 := by
    norm_num [get_escape_time, escapeLoop, Cplx.mul, Cplx.add, Cplx.normSq, Cplx.zero]
  have hjz : escapeLoop ⟨0, 0⟩ ⟨0, 0⟩ 0 (((2 : ℕ) : ℤ) + 1).toNat = none :=
    escapeLoop_zero _ 0
  have hj3 : escapeLoop ⟨0, 0⟩ ⟨3, 0⟩ 0 (((2 : ℕ) : ℤ) + 1).toNat = some 0 := by
    norm_num [escapeLoop, Cplx.mul, Cplx.add, Cplx.normSq]
  refine ⟨?_, ?_, ?_, ?_⟩
  · exact (spec_C3_amended 2 (fun _ : Unit => ⟨0, 0⟩) (fun _ => ⟨0, 0⟩) ⟨0, 0⟩ ()).1
      (by rw [mandelFinal_escape_times, hz]; rfl)
  · exact (spec_C3_amended 2 (fun _ : Unit => ⟨3, 0⟩) (fun _ => ⟨0, 0⟩) ⟨0, 0⟩ ()).2.1
      (by rw [mandelFinal_escape_times, h3]; rfl)
  · exact (spec_C3_amended 2 (fun _ : Unit => ⟨0, 0⟩) (fun _ => ⟨0, 0⟩) ⟨0, 0⟩ ()).2.2.1
      (by rw [juliaFinal_escape_times, hjz]; rfl)
  · exact (spec_C3_amended 2 (fun _ : Unit => ⟨0, 0⟩) (fun _ => ⟨3, 0⟩) ⟨0, 0⟩ ()).2.2.2
      (by rw [juliaFinal_escape_times, hj3]; rfl)

/-- C4 counterexample: with a negative step (here -1), `get_complex_grid`
does not signal any error — it silently returns the empty grid, because both
`np.arange` calls produce empty ranges. -/
theorem spec_C4_counterexample :
    get_complex_grid ⟨-2, 1⟩ ⟨1, -1⟩ (-1) = Except.ok [] := by
  rw [get_complex_grid, if_neg (by norm_num : (-1 : ℚ) ≠ 0)]
  have h0 : arangeLen (Cplx.mk (-2) 1).im (Cplx.mk 1 (-1)).im (-(-1)) = 0 := by
    rw [arangeLen]
    have hval : ((Cplx.mk 1 (-1)).im - (Cplx.mk (-2) 1).im) / (-(-1) : ℚ) = -2 := by
      norm_num
    rw [hval]
    have hc : ⌈(-2 : ℚ)⌉ = (-2 : ℤ) := by
      rw [show (-2 : ℚ) = ((-2 : ℤ) : ℚ) by norm_num, Int.ceil_intCast]
    rw [hc]
    rfl
  simp only [np_arange, h0, List.range_zero, List.map_nil]

/-- C4 (amended): only `step = 0` signals an error (numpy's
`ZeroDivisionError` from `np.arange`); a negative step is accepted silently
and, for a correctly oriented rectangle, produces the empty grid. -/
theorem spec_C4_amended (top_left bottom_right : Cplx) (step : ℚ) (hstep : step < 0)
    (him : bottom_right.im < top_left.im) :
    get_complex_grid top_left bottom_right 0 = Except.error "ZeroDivisionError" ∧
    get_complex_grid top_left bottom_right step = Except.ok [] := by
  constructor
  · rw [get_complex_grid, if_pos rfl]
  · rw [get_complex_grid, if_neg (ne_of_lt hstep)]
    have h0 : arangeLen top_left.im bottom_right.im (-step) = 0 := by
      rw [arangeLen]
      have hpos : (0 : ℚ) < -step := by linarith
      have hneg : (bottom_right.im - top_left.im) / (-step) < 0 :=
        div_neg_of_neg_of_pos (by linarith) hpos
      have hceil : ⌈(bottom_right.im - top_left.im) / (-step)⌉ ≤ 0 :=
        Int.ceil_le.mpr (by exact_mod_cast hneg.le)
      exact Int.toNat_of_nonpos hceil
    simp only [np_arange, h0, List.range_zero, List.map_nil]

/-- C4 amended witness: at the concrete rectangle `-2+1j .. 1-1j` with
`step = -1`. -/
theorem spec_C4_amended_witness :
    get_complex_grid ⟨-2, 1⟩ ⟨1, -1⟩ 0 = Except.error "ZeroDivisionError" ∧
    get_complex_grid ⟨-2, 1⟩ ⟨1, -1⟩ (-1) = Except.ok [] :=
  spec_C4_amended ⟨-2, 1⟩ ⟨1, -1⟩ (-1) (by norm_num) (by norm_num)

/-- C5 counterexample: `get_escape_time(3, -1)` returns the ordinary
"did not escape" value `None` — no invalid-argument error is signalled for a
negative `max_iterations`, even for a point that escapes immediately. -/
theorem spec_C5_counterexample : get_escape_time ⟨3, 0⟩ (-1) = none := rfl

/-- C5 (amended): negative `max_iterations` is not rejected: the scalar
function silently returns `None` (the loop body never runs) and the batch
loop leaves every cell at the sentinel `max_iterations + 1`; while
`max_iterations = 0` is valid and attempts exactly one iteration, at index 0,
escaping exactly when `|0^2 + c| > 2`. -/
theorem spec_C5_amended {α : Type} (c : Cplx) (c_arr : α → Cplx) (p : α) (n : ℤ)
    (hn : n < 0) :
    get_escape_time c n = none ∧
    (mandelFinal c_arr n).escape_times p = n + 1 ∧
    get_escape_time c 0 = (if 4 < c.normSq then some 0 else none) := by
  have htn : (n + 1).toNat = 0 := Int.toNat_of_nonpos (by omega)
  refine ⟨?_, ?_, ?_⟩
  · rw [get_escape_time, htn]
    rfl
  · rw [mandelFinal, htn]
    rfl
  · rw [get_escape_time]
    have h1 : ((0 : ℤ) + 1).toNat = 0 + 1 := rfl
    rw [h1, escapeLoop]
    simp only [zero_step]
    by_cases hc : 4 < c.normSq
    · simp only [hc, if_true]
    · simp only [hc, if_false]
      rfl

/-- C5 amended witness: at `c = 3` and `n = -1`: `None` is returned, the
batch sentinel stays, and `max_iterations = 0` escapes at index 0. -/
theorem spec_C5_amended_witness :
    get_escape_time ⟨3, 0⟩ (-1) = none ∧
    (mandelFinal (fun _ : Unit => Cplx.mk 3 0) (-1)).escape_times () = 0 ∧
    get_escape_time ⟨3, 0⟩ 0 = some 0 := by
  obtain ⟨h1, h2, h3⟩ :=
    spec_C5_amended (⟨3, 0⟩ : Cplx) (fun _ : Unit => ⟨3, 0⟩) () (-1) (by norm_num)
  refine ⟨h1, by rw [h2]; norm_num, ?_⟩
  rw [h3, if_pos (by norm_num [Cplx.normSq])]

/-- One masked step never changes a frozen cell. -/
lemma cellStep_of_dead (c : Cplx) (i : ℕ) (s : CellState) (h : s.mask = false) :
    (cellStep c i s).mask = false ∧ (cellStep c i s).esc = s.esc := by
  rw [cellStep_frozen c i s h]
  exact ⟨h, rfl⟩

/-- If a step changes a cell's recorded escape time, the cell was active,
is deactivated by that very step, and records the current loop index. -/
lemma cellStep_esc_change (c : Cplx) (i : ℕ) (s : CellState)
    (h : (cellStep c i s).esc ≠ s.esc) :
    s.mask = true ∧ (cellStep c i s).mask = false ∧ (cellStep c i s).esc = (i : ℤ) := by
  by_cases hm : s.mask = true
  · by_cases hc : 4 < (((s.z).mul (s.z)).add c).normSq
    · refine ⟨hm, ?_, ?_⟩ <;> simp [cellStep, hm, hc]
    · exfalso
      apply h
      simp [cellStep, hm, hc]
  · have hm' : s.mask = false := by revert hm; cases s.mask <;> simp
    rw [cellStep_frozen c i s hm'] at h
    exact absurd rfl h

/-- C8: in both batch loops every cell transitions at most once and
irreversibly from active to escaped: one step never reactivates a masked-off
cell nor touches its recorded escape time; a step changes a cell's recorded
escape time only if the cell was active, and then it deactivates the cell
and records the current loop index; and once a cell's mask is off, any
remaining iterations leave its mask and escape time unchanged. -/
theorem spec_C8 {α : Type} (i steps j : ℕ) (c : Cplx) (s : MandelState α)
    (t : JuliaState α) (p : α) :
    ((s.mask p = false →
        (mandelStep i s).mask p = false ∧
        (mandelStep i s).escape_times p = s.escape_times p) ∧
      ((mandelStep i s).escape_times p ≠ s.escape_times p →
        s.mask p = true ∧ (mandelStep i s).mask p = false ∧
        (mandelStep i s).escape_times p = (i : ℤ)) ∧
      (s.mask p = false →
        (mandelIter steps j s).mask p = false ∧
        (mandelIter steps j s).escape_times p = s.escape_times p)) ∧
    ((t.mask p = false →
        (juliaStep c i t).mask p = false ∧
        (juliaStep c i t).escape_times p = t.escape_times p) ∧
      ((juliaStep c i t).escape_times p ≠ t.escape_times p →
        t.mask p = true ∧ (juliaStep c i t).mask p = false ∧
        (juliaStep c i t).escape_times p = (i : ℤ)) ∧
      (t.mask p = false →
        (juliaIter c steps j t).mask p = false ∧
        (juliaIter c steps j t).escape_times p = t.escape_times p)) := by
  refine ⟨⟨?_, ?_, ?_⟩, ⟨?_, ?_, ?_⟩⟩
  · intro h
    exact cellStep_of_dead (s.c_arr p) i (s.cell p) h
  · intro h
    exact cellStep_esc_change (s.c_arr p) i (s.cell p) h
  · intro h
    have hcell : (mandelIter steps j s).cell p = s.cell p := by
      rw [mandelIter_cell]
      exact cellIter_frozen _ steps j _ h
    exact ⟨(congrArg CellState.mask hcell).trans h, congrArg CellState.esc hcell⟩
  · intro h
    exact cellStep_of_dead c i (t.cell p) h
  · intro h
    exact cellStep_esc_change c i (t.cell p) h
  · intro h
    have hcell : (juliaIter c steps j t).cell p = t.cell p := by
      rw [juliaIter_cell]
      exact cellIter_frozen _ steps j _ h
    exact ⟨(congrArg CellState.mask hcell).trans h, congrArg CellState.esc hcell⟩

/-- A one-cell Mandelbrot state whose cell has already escaped (escape time
recorded as 1, mask off), for spot checks of the C8 invariants. -/
def deadMandelState : MandelState Unit :=
  { c_arr := fun _ => Cplx.mk 9 0
    zeros := fun _ => Cplx.mk 9 0
    escape_times := fun _ => 1
    mask := fun _ => false }

/-- A one-cell Julia state whose cell has already escaped. -/
def deadJuliaState : JuliaState Unit :=
  { grid := fun _ => Cplx.mk 9 0
    z := fun _ => Cplx.mk 9 0
    escape_times := fun _ => 1
    mask := fun _ => false }

/-- C8 witness: concrete checks — a frozen cell stays frozen with its escape
time 1 through 3 further iterations of either loop, and a cell of the
freshly initialised Mandelbrot state with `c = 3` that escapes at loop index
0 has its mask cleared and escape time set to 0 by that step. -/
theorem spec_C8_witness :
    ((mandelIter 3 0 deadMandelState).mask () = false ∧
      (mandelIter 3 0 deadMandelState).escape_times () = 1) ∧
    ((juliaIter ⟨0, 0⟩ 3 0 deadJuliaState).mask () = false ∧
      (juliaIter ⟨0, 0⟩ 3 0 deadJuliaState).escape_times () = 1) ∧
    ((mandelStep 0 (mandelInit (fun (_ : Unit) => Cplx.mk 3 0) 2)).mask () = false ∧
      (mandelStep 0 (mandelInit (fun (_ : Unit) => Cplx.mk 3 0) 2)).escape_times () = 0) := by
  have heval : (mandelStep 0 (mandelInit (fun (_ : Unit) => Cplx.mk 3 0) 2)).escape_times ()
      = 0 := by
    norm_num [mandelStep, mandelInit, Cplx.mul, Cplx.add, Cplx.normSq, Cplx.zero]
  obtain ⟨⟨-, -, hm⟩, -, -, hj⟩ :=
    spec_C8 0 3 0 (⟨0, 0⟩ : Cplx) deadMandelState deadJuliaState ()
  obtain ⟨-, hesc, -⟩ := (spec_C8 0 3 0 (⟨0, 0⟩ : Cplx)
    (mandelInit (fun (_ : Unit) => Cplx.mk 3 0) 2) deadJuliaState ()).1
  have hne : (mandelStep 0 (mandelInit (fun (_ : Unit) => Cplx.mk 3 0) 2)).escape_times ()
      ≠ (mandelInit (fun (_ : Unit) => Cplx.mk 3 0) 2).escape_times () := by
    rw [heval]
    norm_num [mandelInit]
  obtain ⟨-, hmask0, hesc0⟩ := hesc hne
  exact ⟨hm rfl, hj rfl, hmask0, by rw [hesc0]; rfl⟩

/-- Bounds for the normalization formula at an escape value `t ≤ N + 1`. -/
lemma color_of_escape (N t : ℕ) (ht : t ≤ N + 1) :
    0 ≤ ((N : ℚ) - t + 1) / ((N : ℚ) + 1) ∧
    ((N : ℚ) - t + 1) / ((N : ℚ) + 1) ≤ 1 ∧
    ((N : ℚ) - t + 1) / ((N : ℚ) + 1) = ((N + 1 - t : ℕ) : ℚ) * (1 / ((N : ℚ) + 1)) := by
  have hpos : (0 : ℚ) < (N : ℚ) + 1 := by positivity
  have htq : (t : ℚ) ≤ (N : ℚ) + 1 := by exact_mod_cast ht
  have htq0 : (0 : ℚ) ≤ (t : ℚ) := Nat.cast_nonneg t
  refine ⟨?_, ?_, ?_⟩
  · apply div_nonneg _ hpos.le
    linarith
  · rw [div_le_one hpos]
    linarith
  · rw [Nat.cast_sub ht, mul_one_div]
    push_cast
    congr 1
    ring

/-- The final escape value, viewed as a natural number `t ≤ N + 1`. -/
lemma escape_result_cases (N : ℕ) (o : Option ℕ)
    (hb : ∀ u, o = some u → u < N + 1) :
    ∃ t : ℕ, t ≤ N + 1 ∧
      (Int.cast (o.elim ((N : ℤ) + 1) (fun u => (u : ℤ))) : ℚ) = (t : ℚ) := by
  rcases o with _ | u
  · refine ⟨N + 1, le_rfl, ?_⟩
    simp only [Option.elim_none]
    push_cast
    ring
  · refine ⟨u, (hb u rfl).le, ?_⟩
    simp only [Option.elim_some]
    push_cast
    ring

/-- C10: for every input array and every `max_iterations = N ≥ 0`, each entry
returned by `get_escape_time_color_arr` or `get_julia_color_arr` is
`(N - t + 1)/(N + 1)` for some natural `t ≤ N + 1` (the cell's recorded
escape time, `N + 1` being the never-escaped sentinel); hence every entry
lies in `[0, 1]` and is an integer multiple of `1/(N + 1)`. -/
theorem spec_C10 {α : Type} (N : ℕ) (c_arr grid : α → Cplx) (c : Cplx) (p : α) :
    (∃ t : ℕ, t ≤ N + 1 ∧
      get_escape_time_color_arr c_arr (N : ℤ) p = ((N : ℚ) - t + 1) / ((N : ℚ) + 1) ∧
      0 ≤ get_escape_time_color_arr c_arr (N : ℤ) p ∧
      get_escape_time_color_arr c_arr (N : ℤ) p ≤ 1 ∧
      ∃ m : ℕ, get_escape_time_color_arr c_arr (N : ℤ) p = (m : ℚ) * (1 / ((N : ℚ) + 1))) ∧
    (∃ t : ℕ, t ≤ N + 1 ∧
      get_julia_color_arr grid c (N : ℤ) p = ((N : ℚ) - t + 1) / ((N : ℚ) + 1) ∧
      0 ≤ get_julia_color_arr grid c (N : ℤ) p ∧
      get_julia_color_arr grid c (N : ℤ) p ≤ 1 ∧
      ∃ m : ℕ, get_julia_color_arr grid c (N : ℤ) p = (m : ℚ) * (1 / ((N : ℚ) + 1))) := by
  have hNZ : ((N : ℤ) + 1).toNat = N + 1 := by omega
  constructor
  · obtain ⟨t, ht, hteq⟩ :=
      escape_result_cases N (get_escape_time (c_arr p) (N : ℤ)) (by
        intro u hu
        rw [get_escape_time] at hu
        have := escapeLoop_some_bound (c_arr p) (((N : ℤ) + 1).toNat) 0 u Cplx.zero hu
        omega)
    have hcolor : get_escape_time_color_arr c_arr (N : ℤ) p
        = ((N : ℚ) - t + 1) / ((N : ℚ) + 1) := by
      rw [get_escape_time_color_arr, mandelFinal_escape_times, hteq]
      push_cast
      ring
    obtain ⟨hb0, hb1, hbm⟩ := color_of_escape N t ht
    exact ⟨t, ht, hcolor, by rw [hcolor]; exact hb0, by rw [hcolor]; exact hb1,
      ⟨N + 1 - t, by rw [hcolor, hbm]⟩⟩
  · obtain ⟨t, ht, hteq⟩ :=
      escape_result_cases N (escapeLoop c (grid p) 0 (((N : ℤ) + 1).toNat)) (by
        intro u hu
        have := escapeLoop_some_bound c (((N : ℤ) + 1).toNat) 0 u (grid p) hu
        omega)
    have hcolor : get_julia_color_arr grid c (N : ℤ) p
        = ((N : ℚ) - t + 1) / ((N : ℚ) + 1) := by
      rw [get_julia_color_arr, juliaFinal_escape_times, hteq]
      push_cast
      ring
    obtain ⟨hb0, hb1, hbm⟩ := color_of_escape N t ht
    exact ⟨t, ht, hcolor, by rw [hcolor]; exact hb0, by rw [hcolor]; exact hb1,
      ⟨N + 1 - t, by rw [hcolor, hbm]⟩⟩
